import Mathlib

/-!
Verification development for the credential store of memory-safe-guard-v2
(src/src/lib/db/db.ts, class DatabaseManager).

The store is modelled as a list of entries (the single IndexedDB object
store keyed by id). Wall-clock times produced by Date.now / toISOString are
modelled as explicit natural-number parameters (milliseconds since epoch;
the ISO-8601 rendering is order-isomorphic to this number). Timestamps are
Option Nat: the sort in getAllPasswords and searchPasswords defends against
a missing updatedAt with b.updatedAt appDisj 0, which we render as getD 0,
so the model keeps the field optional and the invariant that it is always
set is proved, not assumed.

The record type mirrors the data model of the repository: the field types
of PasswordInsert and PasswordEntry live in src/lib/types/models.ts which
is not part of the sources; they are reconstructed from the spec data
model (service name, username, secret value, optional metadata, id and the
two timestamps).
-/

/-- Modelled from the spec: PasswordInsert from src/lib/types/models.ts is
not in the sources. The spec data model lists service name, username,
secret value and optional metadata fields; id and timestamps are assigned
by the store. -/
structure PasswordInsert where
  service : String
  username : String
  password : String
  notes : Option String
deriving Repr, DecidableEq

/-- Modelled from the spec: PasswordEntry from src/lib/types/models.ts is
not in the sources; it is the insert shape plus id and the two
timestamps. Timestamps are optional in the model because the sorting code
in db.ts guards against a missing updatedAt. -/
structure PasswordEntry where
  id : String
  service : String
  username : String
  password : String
  notes : Option String
  createdAt : Option Nat
  updatedAt : Option Nat
deriving Repr, DecidableEq

/-- The single object store of DatabaseManager, as the list of its
records. -/
abbrev Store := List PasswordEntry

/-- Sort key used by db.ts lines 101-103 and 139-141:
new Date(e.updatedAt or 0).getTime(). -/
def updKey (e : PasswordEntry) : Nat := e.updatedAt.getD 0

/-- Pattern pat matches at the head of s. -/
def matchHere : List Char → List Char → Bool
  | [], _ => true
  | _ :: _, [] => false
  | a :: as, b :: bs => a == b && matchHere as bs

/-- Pattern pat occurs contiguously somewhere in s. -/
def occursIn (pat : List Char) : List Char → Bool
  | [] => pat.isEmpty
  | b :: bs => matchHere pat (b :: bs) || occursIn pat bs

/-- JavaScript String.prototype.includes: pat occurs as a contiguous
substring of s. -/
def strContains (s pat : String) : Bool := occursIn pat.toList s.toList

/-- JavaScript String.prototype.toLowerCase, on the ASCII range covered
by Char.toLower. -/
def lowerCase (s : String) : String := String.mk (s.toList.map Char.toLower)

/-- JavaScript falsiness of query.trim() in db.ts line 117: the trimmed
query is empty, i.e. every character of the query is whitespace. -/
def isBlank (q : String) : Bool := q.toList.all Char.isWhitespace

/-- One step of the stable insertion realising Array.prototype.sort with
comparator (a, b) mapsto updKey b - updKey a: a is placed before b exactly
when updKey b le updKey a, and ties keep their original order. -/
def insertByUpd (x : PasswordEntry) : Store → Store
  | [] => [x]
  | y :: ys => if updKey y ≤ updKey x then x :: y :: ys else y :: insertByUpd x ys

/-- The sort by updatedAt descending applied in getAllPasswords and
searchPasswords (db.ts lines 101-103, 139-141); stable, as
Array.prototype.sort is. -/
def sortByUpdDesc : Store → Store
  | [] => []
  | x :: xs => insertByUpd x (sortByUpdDesc xs)

/-- DatabaseManager.getAllPasswords (db.ts lines 91-111): read every
record and sort by updatedAt descending. -/
def getAllPasswords (st : Store) : Store := sortByUpdDesc st

/-- The filter predicate of searchPasswords (db.ts lines 133-136):
service or username contains the lowercased query. The query is lowercased
untrimmed, exactly as in the source. -/
def entryMatches (q : String) (e : PasswordEntry) : Bool :=
  strContains (lowerCase e.service) (lowerCase q)
    || strContains (lowerCase e.username) (lowerCase q)

/-- DatabaseManager.searchPasswords (db.ts lines 116-150): a query whose
trim is empty falls back to getAllPasswords; otherwise filter by
entryMatches and sort by updatedAt descending. -/
def searchPasswords (q : String) (st : Store) : Store :=
  if isBlank q then getAllPasswords st
  else sortByUpdDesc (List.filter (entryMatches q) st)

/-- The record built by addPassword (db.ts lines 158-164): fresh id, the
insert data, both timestamps set to now. -/
def mkNewEntry (d : PasswordInsert) (newId : String) (now : Nat) : PasswordEntry :=
  { id := newId, service := d.service, username := d.username,
    password := d.password, notes := d.notes,
    createdAt := some now, updatedAt := some now }

/-- DatabaseManager.addPassword (db.ts lines 155-179). IndexedDB
store.add rejects when the key already exists, surfaced as the error
message of line 176; otherwise the record is stored and returned. -/
def addPassword (st : Store) (d : PasswordInsert) (newId : String) (now : Nat) :
    Except String (PasswordEntry × Store) :=
  let e := mkNewEntry d newId now
  if st.any (fun x => x.id == newId) then
    Except.error "Không thể thêm mật khẩu mới"
  else
    Except.ok (e, st ++ [e])

/-- A Partial of PasswordInsert: each field of the update payload may be
absent. For the optional notes field, some none overwrites the stored
notes with none, while none leaves them untouched. -/
structure PasswordUpdate where
  service : Option String
  username : Option String
  password : Option String
  notes : Option (Option String)
deriving Repr, DecidableEq

/-- The shallow merge of updatePassword (db.ts lines 199-203): spread of
the existing record, then the updates, then updatedAt := now. The id and
createdAt fields are not in the update payload, so they survive. -/
def mergeEntry (e : PasswordEntry) (u : PasswordUpdate) (now : Nat) : PasswordEntry :=
  { id := e.id
    service := u.service.getD e.service
    username := u.username.getD e.username
    password := u.password.getD e.password
    notes := u.notes.getD e.notes
    createdAt := e.createdAt
    updatedAt := some now }

/-- IndexedDB store.put with keyPath id: replace the record carrying the
same id. -/
def putEntry (st : Store) (e : PasswordEntry) : Store :=
  st.map (fun x => if x.id == e.id then e else x)

/-- IndexedDB store.get(id): the record with key id, if any. -/
def findEntry (st : Store) (id : String) : Option PasswordEntry :=
  st.find? (fun x => x.id == id)

/-- DatabaseManager.updatePassword (db.ts lines 184-220): get the record;
absent means the rejection of line 195; otherwise merge shallowly, stamp
updatedAt with now, put, and return the merged record. -/
def updatePassword (st : Store) (id : String) (u : PasswordUpdate) (now : Nat) :
    Except String (PasswordEntry × Store) :=
  match findEntry st id with
  | none => Except.error "Không tìm thấy mật khẩu"
  | some e =>
    let e2 := mergeEntry e u now
    Except.ok (e2, putEntry st e2)

/-- DatabaseManager.deletePassword (db.ts lines 225-241): IndexedDB
store.delete(id) removes the record with that key when present and
succeeds either way. -/
def deletePassword (st : Store) (id : String) : Store :=
  List.filter (fun x => x.id != id) st

/-- The mutating operations of DatabaseManager, for the reachability
relation. -/
inductive DbOp where
  | add (d : PasswordInsert) (newId : String)
  | update (id : String) (u : PasswordUpdate)
  | delete (id : String)
deriving Repr

/-- A store together with the wall clock reading of the latest completed
operation. -/
structure DbState where
  clock : Nat
  store : Store
deriving Repr

/-- Effect of one operation on the store; a rejected add or update leaves
the store unchanged. -/
def applyOp (st : Store) (op : DbOp) (now : Nat) : Store :=
  match op with
  | DbOp.add d newId =>
    match addPassword st d newId now with
    | Except.ok (_, st2) => st2
    | Except.error _ => st
  | DbOp.update id u =>
    match updatePassword st id u now with
    | Except.ok (_, st2) => st2
    | Except.error _ => st
  | DbOp.delete id => deletePassword st id

/-- States reachable from the empty store by add, update and delete,
under a non-decreasing wall clock. -/
inductive Reachable : DbState → Prop where
  | init : Reachable ⟨0, []⟩
  | step {s : DbState} (op : DbOp) (now : Nat) (hnow : s.clock ≤ now)
      (hr : Reachable s) : Reachable ⟨now, applyOp s.store op now⟩

theorem insertByUpd_perm (x : PasswordEntry) (l : Store) :
    (insertByUpd x l).Perm (x :: l) := by
  induction l with
  | nil => exact List.Perm.refl _
  | cons y ys ih =>
    simp only [insertByUpd]
    split
    · exact List.Perm.refl _
    · exact (List.Perm.cons y ih).trans (List.Perm.swap x y ys)

theorem sortByUpdDesc_perm (l : Store) : (sortByUpdDesc l).Perm l := by
  induction l with
  | nil => exact List.Perm.refl _
  | cons x xs ih =>
    exact (insertByUpd_perm x (sortByUpdDesc xs)).trans (List.Perm.cons x ih)

theorem mem_insertByUpd {z x : PasswordEntry} {l : Store} :
    z ∈ insertByUpd x l ↔ z = x ∨ z ∈ l := by
  rw [(insertByUpd_perm x l).mem_iff, List.mem_cons]

theorem pairwise_insertByUpd {x : PasswordEntry} {l : Store}
    (h : l.Pairwise (fun a b => updKey b ≤ updKey a)) :
    (insertByUpd x l).Pairwise (fun a b => updKey b ≤ updKey a) := by
  induction l with
  | nil => simp [insertByUpd]
  | cons y ys ih =>
    rw [List.pairwise_cons] at h
    simp only [insertByUpd]
    split
    · rename_i hle
      rw [List.pairwise_cons]
      refine ⟨?_, List.pairwise_cons.mpr h⟩
      intro z hz
      rcases List.mem_cons.mp hz with hzy | hzys
      · exact hzy ▸ hle
      · exact le_trans (h.1 z hzys) hle
    · rename_i hgt
      rw [List.pairwise_cons]
      refine ⟨?_, ih h.2⟩
      intro z hz
      rcases mem_insertByUpd.mp hz with hzx | hzys
      · exact hzx ▸ le_of_not_le hgt
      · exact h.1 z hzys

theorem pairwise_sortByUpdDesc (l : Store) :
    (sortByUpdDesc l).Pairwise (fun a b => updKey b ≤ updKey a) := by
  induction l with
  | nil => simp [sortByUpdDesc]
  | cons x xs ih => exact pairwise_insertByUpd ih

/-- Sample record mirroring the spec example entry with service GitHub. -/
def entGitHub : PasswordEntry :=
  { id := "id1", service := "GitHub", username := "alice", password := "s1",
    notes := none, createdAt := some 10, updatedAt := some 10 }

/-- Sample record mirroring the spec example entry with service gitlab. -/
def entGitlab : PasswordEntry :=
  { id := "id2", service := "gitlab", username := "bob", password := "s2",
    notes := none, createdAt := some 20, updatedAt := some 20 }

/-- Sample record mirroring the spec example entry with service Twitter. -/
def entTwitter : PasswordEntry :=
  { id := "id3", service := "Twitter", username := "carol", password := "s3",
    notes := none, createdAt := some 30, updatedAt := some 30 }

/-- Sample store holding the three spec example records. -/
def sampleStore : Store := [entGitHub, entGitlab, entTwitter]

/-- Sample insert payload for witnesses. -/
def dW : PasswordInsert :=
  { service := "Example", username := "dana", password := "s9", notes := none }

/-- Sample update payload for witnesses: only the service field is named. -/
def uW : PasswordUpdate :=
  { service := some "GitHub2", username := none, password := none, notes := none }

/-- Claim C8: getAllPasswords returns every stored record exactly once
(it is a permutation of the store), sorted by last-modified timestamp
descending, and on the empty store it returns the empty list. -/
theorem getAllPasswords_correct (st : Store) :
    (getAllPasswords st).Perm st ∧
    (getAllPasswords st).Pairwise (fun a b => updKey b ≤ updKey a) ∧
    getAllPasswords ([] : Store) = [] :=
  ⟨sortByUpdDesc_perm st, pairwise_sortByUpdDesc st, rfl⟩

/-- Claim C2: searching with a query whose trim is empty (the empty
string or all-whitespace) returns exactly the getAllPasswords result,
same records in the same order. -/
theorem search_empty_query_eq_listAll (q : String) (st : Store)
    (h : isBlank q = true) : searchPasswords q st = getAllPasswords st := by
  simp [searchPasswords, h]

theorem search_empty_query_eq_listAll_witness :
    (isBlank "  " = true) ∧
      searchPasswords "  " sampleStore = getAllPasswords sampleStore :=
  ⟨by decide, search_empty_query_eq_listAll "  " sampleStore (by decide)⟩

/-- Claim C1: for a query whose trim is non-empty, searchPasswords
returns exactly the stored records whose service or username contains the
query case-insensitively (a permutation of the filtered store, with
membership characterised by entryMatches), sorted by last-modified
timestamp descending. -/
theorem searchPasswords_correct (q : String) (st : Store)
    (h : isBlank q = false) :
    (searchPasswords q st).Perm (List.filter (entryMatches q) st) ∧
    (searchPasswords q st).Pairwise (fun a b => updKey b ≤ updKey a) ∧
    (∀ e, e ∈ searchPasswords q st ↔ e ∈ st ∧ entryMatches q e = true) := by
  have hq : searchPasswords q st = sortByUpdDesc (List.filter (entryMatches q) st) := by
    simp [searchPasswords, h]
  rw [hq]
  refine ⟨sortByUpdDesc_perm _, pairwise_sortByUpdDesc _, ?_⟩
  intro e
  rw [(sortByUpdDesc_perm _).mem_iff, List.mem_filter]

theorem searchPasswords_correct_witness :
    (isBlank "git" = false) ∧
      (entTwitter ∈ searchPasswords "git" sampleStore ↔
        entTwitter ∈ sampleStore ∧ entryMatches "git" entTwitter = true) :=
  ⟨by decide, (searchPasswords_correct "git" sampleStore (by decide)).2.2 entTwitter⟩

/-- Claim C10: for a query whose trim is non-empty, matching uses the
query verbatim, untrimmed: a record is in the result exactly when its
lowercased service or username contains the lowercased query including
any leading or trailing whitespace. -/
theorem search_matches_verbatim (q : String) (st : Store)
    (h : isBlank q = false) :
    ∀ e, e ∈ searchPasswords q st ↔
      e ∈ st ∧ (strContains (lowerCase e.service) (lowerCase q)
        || strContains (lowerCase e.username) (lowerCase q)) = true := by
  intro e
  have hq : searchPasswords q st = sortByUpdDesc (List.filter (entryMatches q) st) := by
    simp [searchPasswords, h]
  rw [hq, (sortByUpdDesc_perm _).mem_iff, List.mem_filter, entryMatches]

theorem search_matches_verbatim_witness :
    (isBlank " git" = false) ∧ entGitHub ∉ searchPasswords " git" sampleStore :=
  ⟨by decide, fun hmem =>
    absurd ((search_matches_verbatim " git" sampleStore (by decide) entGitHub).mp hmem).2
      (by decide)⟩

/-- Claim C7: deletePassword never fails; afterwards a lookup for the id
finds nothing, deleting again changes nothing (idempotent), and the other
records are exactly preserved. -/
theorem deletePassword_correct (st : Store) (id : String) :
    findEntry (deletePassword st id) id = none ∧
    deletePassword (deletePassword st id) id = deletePassword st id ∧
    (∀ x ∈ st, x.id ≠ id → x ∈ deletePassword st id) ∧
    (∀ x ∈ deletePassword st id, x ∈ st) := by
  refine ⟨?_, ?_, ?_, ?_⟩
  · rw [findEntry]
    rw [List.find?_eq_none]
    intro x hx
    have hne := (List.mem_filter.mp hx).2
    simp only [bne_iff_ne, ne_eq] at hne
    simp [hne]
  · rw [deletePassword, deletePassword, List.filter_filter]
    simp
  · intro x hx hne
    rw [deletePassword, List.mem_filter]
    exact ⟨hx, by simp [hne]⟩
  · intro x hx
    exact (List.mem_filter.mp hx).1

theorem deletePassword_correct_witness :
    findEntry (deletePassword sampleStore "id2") "id2" = none ∧
    deletePassword (deletePassword sampleStore "id2") "id2" =
      deletePassword sampleStore "id2" ∧
    entGitHub ∈ deletePassword sampleStore "id2" :=
  ⟨(deletePassword_correct sampleStore "id2").1,
   (deletePassword_correct sampleStore "id2").2.1,
   (deletePassword_correct sampleStore "id2").2.2.1 entGitHub (by decide) (by decide)⟩

/-- Claim C3: with a fresh identifier, addPassword stores and returns the
record built from the input data, a subsequent getAllPasswords includes
it, and its creation timestamp equals its last-modified timestamp. -/
theorem addPassword_correct (st : Store) (d : PasswordInsert) (newId : String) (now : Nat)
    (h : (st.any fun x => x.id == newId) = false) :
    addPassword st d newId now =
      Except.ok (mkNewEntry d newId now, st ++ [mkNewEntry d newId now]) ∧
    mkNewEntry d newId now ∈ getAllPasswords (st ++ [mkNewEntry d newId now]) ∧
    (mkNewEntry d newId now).createdAt = (mkNewEntry d newId now).updatedAt := by
  refine ⟨by simp [addPassword, h], ?_, rfl⟩
  rw [getAllPasswords, (sortByUpdDesc_perm _).mem_iff]
  simp

theorem addPassword_correct_witness :
    ((sampleStore.any fun x => x.id == "id9") = false) ∧
      mkNewEntry dW "id9" 40 ∈ getAllPasswords (sampleStore ++ [mkNewEntry dW "id9" 40]) :=
  ⟨by decide, (addPassword_correct sampleStore dW "id9" 40 (by decide)).2.1⟩

/-- Claim C4: updatePassword fails with the not-found error exactly when
no record with the id exists; when the record exists it returns the
shallow merge of the update payload over it, stamped with the new
last-modified time, and the merged record is persisted in the store. -/
theorem updatePassword_correct (st : Store) (id : String) (u : PasswordUpdate) (now : Nat) :
    (updatePassword st id u now = Except.error "Không tìm thấy mật khẩu" ↔
      findEntry st id = none) ∧
    (∀ e, findEntry st id = some e →
      updatePassword st id u now =
        Except.ok (mergeEntry e u now, putEntry st (mergeEntry e u now)) ∧
      (mergeEntry e u now).updatedAt = some now ∧
      mergeEntry e u now ∈ putEntry st (mergeEntry e u now)) := by
  rcases hfe : findEntry st id with _ | e0
  · refine ⟨by simp [updatePassword, hfe], ?_⟩
    intro e he
    cases he
  · refine ⟨by simp [updatePassword, hfe], ?_⟩
    intro e he
    have heq : e0 = e := Option.some.inj he
    subst heq
    refine ⟨by simp [updatePassword, hfe], rfl, ?_⟩
    refine List.mem_map.mpr ⟨e0, List.mem_of_find?_eq_some hfe, ?_⟩
    simp [mergeEntry]

theorem updatePassword_correct_witness :
    updatePassword sampleStore "id1" uW 50 =
      Except.ok (mergeEntry entGitHub uW 50, putEntry sampleStore (mergeEntry entGitHub uW 50)) ∧
    mergeEntry entGitHub uW 50 ∈ putEntry sampleStore (mergeEntry entGitHub uW 50) :=
  ⟨((updatePassword_correct sampleStore "id1" uW 50).2 entGitHub (by decide)).1,
   ((updatePassword_correct sampleStore "id1" uW 50).2 entGitHub (by decide)).2.2⟩

/-- Claim C6: a successful update changes only the fields named in the
payload plus the last-modified timestamp; the identifier and the creation
timestamp of the record are unchanged, every unnamed field is unchanged,
and every other record of the store is untouched. -/
theorem updatePassword_frame (st : Store) (id : String) (u : PasswordUpdate) (now : Nat)
    (e : PasswordEntry) (hf : findEntry st id = some e) :
    updatePassword st id u now =
      Except.ok (mergeEntry e u now, putEntry st (mergeEntry e u now)) ∧
    (mergeEntry e u now).id = e.id ∧
    (mergeEntry e u now).createdAt = e.createdAt ∧
    (u.service = none → (mergeEntry e u now).service = e.service) ∧
    (u.username = none → (mergeEntry e u now).username = e.username) ∧
    (u.password = none → (mergeEntry e u now).password = e.password) ∧
    (u.notes = none → (mergeEntry e u now).notes = e.notes) ∧
    (∀ x ∈ st, x.id ≠ id → x ∈ putEntry st (mergeEntry e u now)) ∧
    (∀ x ∈ putEntry st (mergeEntry e u now), x.id ≠ id → x ∈ st) := by
  have hid : e.id = id := by
    have hbeq := List.find?_some hf
    exact eq_of_beq hbeq
  refine ⟨by simp [updatePassword, hf], rfl, rfl,
    fun h => by simp [mergeEntry, h], fun h => by simp [mergeEntry, h],
    fun h => by simp [mergeEntry, h], fun h => by simp [mergeEntry, h], ?_, ?_⟩
  · intro x hx hne
    refine List.mem_map.mpr ⟨x, hx, ?_⟩
    rw [if_neg]
    intro hc
    exact hne (by simpa [mergeEntry, hid] using eq_of_beq hc)
  · intro x hx hne
    rcases List.mem_map.mp hx with ⟨y, hy, hyx⟩
    by_cases hc : (y.id == (mergeEntry e u now).id) = true
    · rw [if_pos hc] at hyx
      exact absurd (by rw [← hyx]; simpa [mergeEntry] using hid) hne
    · rw [if_neg hc] at hyx
      exact hyx ▸ hy

theorem updatePassword_frame_witness :
    (findEntry sampleStore "id1" = some entGitHub) ∧
    (mergeEntry entGitHub uW 60).createdAt = entGitHub.createdAt ∧
    entGitlab ∈ putEntry sampleStore (mergeEntry entGitHub uW 60) :=
  ⟨by decide,
   (updatePassword_frame sampleStore "id1" uW 60 entGitHub (by decide)).2.2.1,
   (updatePassword_frame sampleStore "id1" uW 60 entGitHub (by decide)).2.2.2.2.2.2.2.1
     entGitlab (by decide) (by decide)⟩

/-- Counterexample to claim C5 as stated: updating entGitHub (last
modified at time 10) at current time 10 — the same clock reading, as
happens when the update lands in the same millisecond — succeeds, sets
the named field, but leaves the last-modified timestamp equal to, not
strictly later than, its previous value. -/
theorem update_same_instant_not_strictly_later :
    updatePassword sampleStore "id1" uW 10 =
      Except.ok (mergeEntry entGitHub uW 10, putEntry sampleStore (mergeEntry entGitHub uW 10)) ∧
    uW.service = some "GitHub2" ∧
    (mergeEntry entGitHub uW 10).service = "GitHub2" ∧
    updKey entGitHub = 10 ∧
    ¬ updKey entGitHub < updKey (mergeEntry entGitHub uW 10) :=
  ⟨rfl, rfl, by decide, rfl, by decide⟩

/-- Claim C5, amended: when a record with the id exists and the update
happens at a time strictly later than the record's previous last-modified
time, the update succeeds, the named field takes the new value, the
merged record appears in getAllPasswords, and its last-modified timestamp
is strictly later than before. In general the code guarantees the new
last-modified timestamp equals the update time, hence only non-strict
monotonicity when the clock has not advanced. -/
theorem update_field_and_fresh_time (st : Store) (id : String) (u : PasswordUpdate)
    (now : Nat) (e : PasswordEntry) (v : String) (hf : findEntry st id = some e)
    (hv : u.service = some v) (hnow : updKey e < now) :
    updatePassword st id u now =
      Except.ok (mergeEntry e u now, putEntry st (mergeEntry e u now)) ∧
    (mergeEntry e u now).service = v ∧
    mergeEntry e u now ∈ getAllPasswords (putEntry st (mergeEntry e u now)) ∧
    updKey e < updKey (mergeEntry e u now) := by
  refine ⟨by simp [updatePassword, hf], by simp [mergeEntry, hv], ?_, ?_⟩
  · rw [getAllPasswords, (sortByUpdDesc_perm _).mem_iff]
    refine List.mem_map.mpr ⟨e, List.mem_of_find?_eq_some hf, ?_⟩
    simp [mergeEntry]
  · simpa [mergeEntry, updKey] using hnow

theorem update_field_and_fresh_time_witness :
    (findEntry sampleStore "id1" = some entGitHub) ∧
    (uW.service = some "GitHub2") ∧ updKey entGitHub < 50 ∧
    (mergeEntry entGitHub uW 50).service = "GitHub2" ∧
    updKey entGitHub < updKey (mergeEntry entGitHub uW 50) :=
  ⟨by decide, rfl, by decide,
   (update_field_and_fresh_time sampleStore "id1" uW 50 entGitHub "GitHub2"
      (by decide) rfl (by decide)).2.1,
   (update_field_and_fresh_time sampleStore "id1" uW 50 entGitHub "GitHub2"
      (by decide) rfl (by decide)).2.2.2⟩

theorem applyOp_add (st : Store) (d : PasswordInsert) (newId : String) (now : Nat) :
    applyOp st (DbOp.add d newId) now =
      if st.any (fun x => x.id == newId) then st
      else st ++ [mkNewEntry d newId now] := by
  by_cases h : (st.any fun x => x.id == newId) = true
  · simp [applyOp, addPassword, h]
  · simp only [Bool.not_eq_true] at h
    simp [applyOp, addPassword, h]

theorem applyOp_update_none (st : Store) (id : String) (u : PasswordUpdate) (now : Nat)
    (h : findEntry st id = none) : applyOp st (DbOp.update id u) now = st := by
  simp [applyOp, updatePassword, h]

theorem applyOp_update_some (st : Store) (id : String) (u : PasswordUpdate) (now : Nat)
    (e : PasswordEntry) (h : findEntry st id = some e) :
    applyOp st (DbOp.update id u) now = putEntry st (mergeEntry e u now) := by
  simp [applyOp, updatePassword, h]

/-- Every state reachable under a non-decreasing clock satisfies: each
stored record has both timestamps set, and all timestamps are bounded by
the clock. -/
theorem reachable_invariant {s : DbState} (hs : Reachable s) :
    ∀ e ∈ s.store,
      e.createdAt.isSome = true ∧ e.updatedAt.isSome = true ∧
      e.createdAt.getD 0 ≤ s.clock ∧ updKey e ≤ s.clock := by
  induction hs with
  | init => intro e he; exact absurd he (List.not_mem_nil e)
  | @step t op now hnow hr ih =>
    intro e he
    cases op with
    | add d newId =>
      rw [applyOp_add] at he
      split at he
      · rcases ih e he with ⟨h1, h2, h3, h4⟩
        exact ⟨h1, h2, le_trans h3 hnow, le_trans h4 hnow⟩
      · rcases List.mem_append.mp he with hin | hnew
        · rcases ih e hin with ⟨h1, h2, h3, h4⟩
          exact ⟨h1, h2, le_trans h3 hnow, le_trans h4 hnow⟩
        · rcases List.mem_singleton.mp hnew with rfl
          exact ⟨rfl, rfl, Nat.le_refl now, Nat.le_refl now⟩
    | update id u =>
      cases hfe : findEntry t.store id with
      | none =>
        rw [applyOp_update_none t.store id u now hfe] at he
        rcases ih e he with ⟨h1, h2, h3, h4⟩
        exact ⟨h1, h2, le_trans h3 hnow, le_trans h4 hnow⟩
      | some e0 =>
        rw [applyOp_update_some t.store id u now e0 hfe] at he
        rcases List.mem_map.mp he with ⟨y, hy, hyx⟩
        by_cases hc : (y.id == (mergeEntry e0 u now).id) = true
        · rw [if_pos hc] at hyx
          subst hyx
          have hm0 : e0 ∈ t.store := List.mem_of_find?_eq_some hfe
          rcases ih e0 hm0 with ⟨h1, h2, h3, h4⟩
          exact ⟨h1, rfl, le_trans h3 hnow, by simp [updKey, mergeEntry]⟩
        · rw [if_neg hc] at hyx
          subst hyx
          rcases ih y hy with ⟨h1, h2, h3, h4⟩
          exact ⟨h1, h2, le_trans h3 hnow, le_trans h4 hnow⟩
    | delete id =>
      have hin : e ∈ t.store := by
        simp only [applyOp, deletePassword] at he
        exact (List.mem_filter.mp he).1
      rcases ih e hin with ⟨h1, h2, h3, h4⟩
      exact ⟨h1, h2, le_trans h3 hnow, le_trans h4 hnow⟩

/-- Claim C9: in every state reachable by add, update and delete under a
non-decreasing clock, every stored record has both its creation and
last-modified timestamps set, and an update performed from such a state
never moves the last-modified timestamp of the affected record
backwards. -/
theorem timestamps_set_and_monotonic (s : DbState) (hs : Reachable s) :
    (∀ e ∈ s.store, e.createdAt.isSome = true ∧ e.updatedAt.isSome = true) ∧
    (∀ id u now e2 st2 eo, s.clock ≤ now →
      updatePassword s.store id u now = Except.ok (e2, st2) →
      findEntry s.store id = some eo →
      updKey eo ≤ updKey e2) := by
  constructor
  · intro e he
    exact ⟨(reachable_invariant hs e he).1, (reachable_invariant hs e he).2.1⟩
  · intro id u now e2 st2 eo hclk hupd hf
    rw [updatePassword] at hupd
    rw [hf] at hupd
    simp only [Except.ok.injEq, Prod.mk.injEq] at hupd
    rcases hupd with ⟨h1, -⟩
    have hmem : eo ∈ s.store := List.mem_of_find?_eq_some hf
    have hb := (reachable_invariant hs eo hmem).2.2.2
    rw [← h1]
    simp only [updKey, mergeEntry, Option.getD_some]
    exact le_trans hb hclk

theorem timestamps_set_and_monotonic_witness :
    ((mkNewEntry dW "id9" 10).createdAt.isSome = true ∧
      (mkNewEntry dW "id9" 10).updatedAt.isSome = true) ∧
    updKey (mkNewEntry dW "id9" 10) ≤ updKey (mergeEntry (mkNewEntry dW "id9" 10) uW 15) :=
  have hr : Reachable ⟨10, applyOp [] (DbOp.add dW "id9") 10⟩ :=
    Reachable.step (DbOp.add dW "id9") 10 (Nat.zero_le 10) Reachable.init
  ⟨(timestamps_set_and_monotonic ⟨10, applyOp [] (DbOp.add dW "id9") 10⟩ hr).1
      (mkNewEntry dW "id9" 10) (by decide),
   (timestamps_set_and_monotonic ⟨10, applyOp [] (DbOp.add dW "id9") 10⟩ hr).2
      "id9" uW 15 (mergeEntry (mkNewEntry dW "id9" 10) uW 15)
      (putEntry (applyOp [] (DbOp.add dW "id9") 10) (mergeEntry (mkNewEntry dW "id9" 10) uW 15))
      (mkNewEntry dW "id9" 10) (by decide) rfl (by decide)⟩
